import Mathlib

/-!
Shallow embedding of the OAuth session orchestration module
(`startOAuthSession`, `getOAuthStatus`, `completeOAuthCallback`,
`renderOAuthResultPage` and their helpers) of the repository, together
with theorems settling the specification claims about it.

Modelling conventions:
* JS strings are Lean `String`s; a "falsy" string is the empty string.
* Timestamps (`Date.now()` values) are `Int`; a falsy `createdAt` is `0`.
  The possibly distinct `nowMs()` reads inside one synchronous section of
  an operation are modelled as a single instant `now` passed to the
  operation.
* The process-wide `sessions : Map` is an association list in insertion
  order (`Store`). `Map.get` is `mapGet`, `Map.set` is `mapSet`
  (replace-in-place or append), and the `for ... delete` loop of
  `cleanupExpiredSessions` is a filter. Values are `Option OAuthSession`
  so that a falsy (null/undefined) stored value is representable, as the
  `!session` guards in the source require.
* The external collaborators `httpClient.exchangeCodeForToken` and
  `authManager.addAccount` are parameters; a thrown JS error is an
  `Except.error` carrying the string that `e.message || String(e)`
  evaluates to.  The `authManager.apiLimiter` handle is absorbed into
  the `exchange` closure.  `completeOAuthCallback` additionally returns
  the list of `(code, redirectUri)` argument pairs it passed to the
  exchange collaborator, so that call-counting claims are statable.
* `crypto.randomUUID()` is modelled by passing the fresh token
  `freshState` as a parameter to `startOAuthSession`, and the
  `clientId` from `httpClient.getOAuthClient()` as a parameter to
  `buildAuthUrl`.
-/

/-- Result record `{success, message}` produced by the callback processor. -/
structure OAuthResult where
  success : Bool
  message : String
deriving DecidableEq, Repr

/-- Session record stored under a state token: `{createdAt, redirectUri, result}`. -/
structure OAuthSession where
  createdAt : Int
  redirectUri : String
  result : Option OAuthResult
deriving DecidableEq, Repr

/-- The `sessions` map: association list from state token to stored value
(`none` models a falsy stored value, `some s` a session object). -/
abbrev Store := List (String × Option OAuthSession)

/-- `SESSION_TTL_MS = 30 * 60 * 1000`. -/
def SESSION_TTL_MS : Int := 30 * 60 * 1000

/-- `sessions.get(k)`: first binding of `k`, `none` when absent. -/
def mapGet : Store → String → Option (Option OAuthSession)
  | [], _ => none
  | (k, v) :: rest, key => if k = key then some v else mapGet rest key

/-- `sessions.set(k, v)`: overwrite the first binding of `k` in place,
else append a new binding (JS `Map` insertion-order semantics). -/
def mapSet : Store → String → Option OAuthSession → Store
  | [], key, v => [(key, v)]
  | (k, w) :: rest, key, v =>
    if k = key then (key, v) :: rest else (k, w) :: mapSet rest key v

/-- Entry-retention test of `cleanupExpiredSessions`: the source deletes an
entry when `!session || !session.createdAt || now - session.createdAt > SESSION_TTL_MS`. -/
def sessionLive (now : Int) : Option OAuthSession → Bool
  | none => false
  | some s => !(s.createdAt = 0 : Bool) && !(now - s.createdAt > SESSION_TTL_MS : Bool)

/-- `cleanupExpiredSessions()`: delete every entry whose value is falsy,
whose `createdAt` is falsy, or whose age exceeds the TTL. -/
def cleanupExpiredSessions (store : Store) (now : Int) : Store :=
  store.filter fun e => sessionLive now e.2

/-- Single-character `String.prototype.replaceAll`: every occurrence of the
one-character search string `c` is replaced by `r`. -/
def replaceAllChar (c : Char) (r : String) (s : String) : String :=
  ⟨s.data.flatMap fun x => if x = c then r.data else [x]⟩

/-- `escapeHtml(str)`: the source's chain of five `replaceAll` calls, applied
in order `&`, `<`, `>`, `"`, `'`.  (`String(str || "")` is the identity on
the `String` inputs modelled here.) -/
def escapeHtml (s : String) : String :=
  replaceAllChar '\x27' "&#39;"
    (replaceAllChar '"' "&quot;"
      (replaceAllChar '>' "&gt;"
        (replaceAllChar '<' "&lt;"
          (replaceAllChar '&' "&amp;" s))))

/-- The raw `config?.server?.port` value: a JS number (with a finiteness
flag; `finite = false` models `NaN`/`±Infinity`), a string, or any other
value (`undefined`, `null`, objects, ...), which optional chaining also
produces when `config` or `config.server` is missing. -/
inductive PortValue where
  | undefined
  | num (finite : Bool) (v : Int)
  | str (s : String)
  | other
deriving DecidableEq, Repr

/-- The JavaScript `String.prototype.trim` whitespace set: WhiteSpace
(tab, VT, FF, space, NBSP, BOM and the Unicode space separators) and
LineTerminator (LF, CR, LS, PS). -/
def isJsWhitespace (c : Char) : Bool :=
  c.toNat = 0x09 || c.toNat = 0x0A || c.toNat = 0x0B || c.toNat = 0x0C ||
    c.toNat = 0x0D || c.toNat = 0x20 || c.toNat = 0xA0 || c.toNat = 0x1680 ||
    (0x2000 ≤ c.toNat && c.toNat ≤ 0x200A) || c.toNat = 0x2028 ||
    c.toNat = 0x2029 || c.toNat = 0x202F || c.toNat = 0x205F ||
    c.toNat = 0x3000 || c.toNat = 0xFEFF

/-- `String.prototype.trim`: strip leading and trailing whitespace. -/
def jsTrim (s : String) : String :=
  ⟨((s.data.dropWhile isJsWhitespace).reverse.dropWhile isJsWhitespace).reverse⟩

/-- Decimal digit run value. -/
def digitsToNat (l : List Char) : Nat :=
  l.foldl (fun acc c => acc * 10 + (c.toNat - 48)) 0

/-- Longest leading run of decimal digits, `none` when there is none. -/
def leadingDigits (l : List Char) : Option Nat :=
  let ds := l.takeWhile Char.isDigit
  if ds = [] then none else some (digitsToNat ds)

/-- `Number.parseInt(s, 10)` on an already-trimmed string: optional sign,
then the longest leading run of decimal digits; `none` models `NaN`. -/
def parseIntDec (s : String) : Option Int :=
  match s.data with
  | '-' :: rest => (leadingDigits rest).map fun n => -(n : Int)
  | '+' :: rest => (leadingDigits rest).map fun n => (n : Int)
  | l => (leadingDigits l).map fun n => (n : Int)

/-- `resolveServerPort(config)` over the raw `config?.server?.port` value:
a finite number is returned directly; a string with non-empty trim is fed
to `parseInt` and its value returned when finite; everything else falls
back to `3000`. -/
def resolveServerPort (rawPort : PortValue) : Int :=
  match rawPort with
  | .num true v => v
  | .str s =>
    if jsTrim s ≠ "" then
      match parseIntDec (jsTrim s) with
      | some v => v
      | none => 3000
    else 3000
  | _ => 3000

/-- Uppercase hexadecimal digit, as used by `URLSearchParams` percent-escapes. -/
def hexDigitU (n : Nat) : Char :=
  if n < 10 then Char.ofNat (48 + n) else Char.ofNat (55 + n)

/-- UTF-8 encoding of one character, as a list of bytes. -/
def utf8EncodeChar (c : Char) : List Nat :=
  let n := c.toNat
  if n < 0x80 then [n]
  else if n < 0x800 then [0xC0 + n / 64, 0x80 + n % 64]
  else if n < 0x10000 then [0xE0 + n / 4096, 0x80 + n / 64 % 64, 0x80 + n % 64]
  else [0xF0 + n / 262144, 0x80 + n / 4096 % 64, 0x80 + n / 64 % 64, 0x80 + n % 64]

/-- Bytes kept verbatim by the `application/x-www-form-urlencoded`
serializer: ASCII alphanumerics and `*`, `-`, `.`, `_`. -/
def isSafeByte (b : Nat) : Bool :=
  (48 ≤ b && b ≤ 57) || (65 ≤ b && b ≤ 90) || (97 ≤ b && b ≤ 122) ||
    b = 0x2A || b = 0x2D || b = 0x2E || b = 0x5F

/-- `application/x-www-form-urlencoded` serialization of one byte: safe
bytes verbatim, space as `+`, everything else percent-escaped. -/
def formEncodeByte (b : Nat) : List Char :=
  if isSafeByte b then [Char.ofNat b]
  else if b = 0x20 then ['+']
  else ['%', hexDigitU (b / 16), hexDigitU (b % 16)]

/-- `application/x-www-form-urlencoded` serialization of a string, as
performed by `URLSearchParams.toString()` on each name and value. -/
def formUrlEncode (s : String) : String :=
  ⟨s.data.flatMap fun c => (utf8EncodeChar c).flatMap formEncodeByte⟩

/-- One `name=value` unit of a `URLSearchParams` serialization. -/
def paramSeg (p : String × String) : List Char :=
  p.1.data ++ '=' :: (formUrlEncode p.2).data

/-- `URLSearchParams.toString()`: the `name=encoded-value` units joined
with `&`, in insertion order. -/
def serializeParams : List (String × String) → List Char
  | [] => []
  | [p] => paramSeg p
  | p :: ps => paramSeg p ++ '&' :: serializeParams ps

/-- The provider authorization endpoint hard-coded in `buildAuthUrl`. -/
def authEndpoint : String := "https://accounts.google.com/o/oauth2/v2/auth"

/-- The scope list of `buildAuthUrl`, joined with a single space. -/
def oauthScope : String :=
  String.intercalate " "
    ["https://www.googleapis.com/auth/cloud-platform",
     "https://www.googleapis.com/auth/userinfo.email",
     "https://www.googleapis.com/auth/userinfo.profile",
     "https://www.googleapis.com/auth/cclog",
     "https://www.googleapis.com/auth/experimentsandconfigs"]

/-- The `URLSearchParams` insertion order of `buildAuthUrl`. -/
def authParams (state redirectUri clientId : String) : List (String × String) :=
  [("access_type", "offline"),
   ("scope", oauthScope),
   ("state", state),
   ("prompt", "consent"),
   ("response_type", "code"),
   ("client_id", clientId),
   ("redirect_uri", redirectUri)]

/-- `buildAuthUrl(state, redirectUri)`, with the `clientId` obtained from
`httpClient.getOAuthClient()` passed as a parameter. -/
def buildAuthUrl (state redirectUri clientId : String) : String :=
  authEndpoint ++ "?" ++ ⟨serializeParams (authParams state redirectUri clientId)⟩

/-- Response record of `startOAuthSession`. -/
structure StartResponse where
  state : String
  auth_url : String
  redirect_uri : String
  expires_in_ms : Int
deriving DecidableEq, Repr

/-- `startOAuthSession(req, config)`: clean up, derive the redirect URI
from the resolved port, insert a fresh pending session under the fresh
state token, and return the response record.  The fresh token minted by
`createState()` is the parameter `freshState`. -/
def startOAuthSession (freshState : String) (rawPort : PortValue)
    (clientId : String) (store : Store) (now : Int) : StartResponse × Store :=
  let cleaned := cleanupExpiredSessions store now
  let port := resolveServerPort rawPort
  let redirectUri := "http://localhost:" ++ toString port ++ "/oauth-callback"
  let authUrl := buildAuthUrl freshState redirectUri clientId
  let store' := mapSet cleaned freshState
    (some { createdAt := now, redirectUri := redirectUri, result := none })
  ({ state := freshState, auth_url := authUrl, redirect_uri := redirectUri,
     expires_in_ms := SESSION_TTL_MS }, store')

/-- Status payload returned by `getOAuthStatus`. -/
inductive StatusPayload where
  | expired (message : String)
  | pending
  | completed (success : Bool) (message : String)
deriving DecidableEq, Repr

/-- `getOAuthStatus(state)`: clean up, then report `expired` when the state
has no truthy session, `completed` spreading the session's result when one
is set, and `pending` otherwise. -/
def getOAuthStatus (store : Store) (state : String) (now : Int) :
    StatusPayload × Store :=
  let cleaned := cleanupExpiredSessions store now
  match mapGet cleaned state with
  | none => (.expired "OAuth state not found or expired", cleaned)
  | some none => (.expired "OAuth state not found or expired", cleaned)
  | some (some session) =>
    match session.result with
    | some r => (.completed r.success r.message, cleaned)
    | none => (.pending, cleaned)

/-- `completeOAuthCallback({state, code, error, errorDescription, authManager})`.
Returns the terminal result, the updated store, and the list of
`(code, redirectUri)` argument pairs passed to the exchange collaborator. -/
def completeOAuthCallback {α : Type}
    (exchange : String → String → Except String α)
    (addAccount : α → Except String Unit)
    (state code error errorDescription : String)
    (store : Store) (now : Int) :
    OAuthResult × Store × List (String × String) :=
  let cleaned := cleanupExpiredSessions store now
  if state = "" then ({ success := false, message := "Missing state" }, cleaned, [])
  else
    match mapGet cleaned state with
    | none => ({ success := false, message := "OAuth state not found or expired" }, cleaned, [])
    | some none => ({ success := false, message := "OAuth state not found or expired" }, cleaned, [])
    | some (some session) =>
      if error ≠ "" then
        let msg := "授权失败: " ++ (if errorDescription ≠ "" then errorDescription else error)
        let result : OAuthResult := { success := false, message := msg }
        (result, mapSet cleaned state (some { session with result := some result }), [])
      else if code = "" then
        let result : OAuthResult := { success := false, message := "Missing code" }
        (result, mapSet cleaned state (some { session with result := some result }), [])
      else
        match exchange code session.redirectUri with
        | .error m =>
          let result : OAuthResult := { success := false, message := "获取 token 失败: " ++ m }
          (result, mapSet cleaned state (some { session with result := some result }),
           [(code, session.redirectUri)])
        | .ok creds =>
          match addAccount creds with
          | .error m =>
            let result : OAuthResult := { success := false, message := "获取 token 失败: " ++ m }
            (result, mapSet cleaned state (some { session with result := some result }),
             [(code, session.redirectUri)])
          | .ok _ =>
            let result : OAuthResult := { success := true, message := "授权成功" }
            (result, mapSet cleaned state (some { session with result := some result }),
             [(code, session.redirectUri)])

/-- Lowercase hexadecimal digit, as used by `JSON.stringify` escapes. -/
def hexDigitL (n : Nat) : Char :=
  if n < 10 then Char.ofNat (48 + n) else Char.ofNat (87 + n)

/-- `JSON.stringify` escaping of one character inside a string literal:
quote and backslash get a backslash escape, the named control characters
get their shorthand, other control characters get a lowercase
hexadecimal escape, everything else is kept verbatim. -/
def jsonEscapeChar (c : Char) : List Char :=
  if c = '"' then ['\\', '"']
  else if c = '\\' then ['\\', '\\']
  else if c = '\x08' then ['\\', 'b']
  else if c = '\x09' then ['\\', 't']
  else if c = '\x0a' then ['\\', 'n']
  else if c = '\x0c' then ['\\', 'f']
  else if c = '\x0d' then ['\\', 'r']
  else if c.toNat < 0x20 then
    ['\\', 'u', '0', '0', hexDigitL (c.toNat / 16), hexDigitL (c.toNat % 16)]
  else [c]

/-- `JSON.stringify` of a string value. -/
def jsonQuote (s : String) : String :=
  "\"" ++ ⟨s.data.flatMap jsonEscapeChar⟩ ++ "\""

/-- `JSON.stringify(payload)` for the payload object
`{type: "oauth_result", state: state || "", success: !!success, message: message || ""}`
built by `renderOAuthResultPage` (property insertion order preserved). -/
def jsonStringifyPayload (state : String) (success : Bool) (message : String) : String :=
  "\x7b\"type\":\"oauth_result\",\"state\":" ++ jsonQuote state ++
    ",\"success\":" ++ (if success then "true" else "false") ++
    ",\"message\":" ++ jsonQuote message ++ "\x7d"

/-- `payloadJson`: the stringified payload with every `<` replaced by the
six-character sequence backslash-u003c. -/
def oauthPayloadJson (state : String) (success : Bool) (message : String) : String :=
  replaceAllChar '<' "\\u003c" (jsonStringifyPayload state success message)

/-- The HTML template text before the first `${title}` interpolation. -/
def oauthPageA : String :=
  "<!DOCTYPE html>
<html lang=\"zh-CN\">
<head>
  <meta charset=\"UTF-8\" />
  <meta name=\"viewport\" content=\"width=device-width, initial-scale=1.0\" />
  <title>"

/-- The HTML template text between `${title}` and `${statusClass}`. -/
def oauthPageB : String :=
  "</title>
  <style>
    body \x7b font-family: -apple-system, BlinkMacSystemFont, \"Segoe UI\", Roboto, Helvetica, Arial, sans-serif; background: #0b1220; color: #e6edf3; margin: 0; min-height: 100vh; display: flex; align-items: center; justify-content: center; \x7d
    .card \x7b width: min(520px, 92vw); background: #111a2e; border: 1px solid rgba(255,255,255,0.08); border-radius: 16px; padding: 28px; box-shadow: 0 16px 40px rgba(0,0,0,0.5); \x7d
    .badge \x7b display: inline-flex; align-items: center; gap: 8px; padding: 6px 12px; border-radius: 999px; font-weight: 600; font-size: 13px; letter-spacing: .2px; \x7d
    .badge.success \x7b background: rgba(34, 197, 94, 0.15); color: #4ade80; border: 1px solid rgba(34, 197, 94, 0.35); \x7d
    .badge.error \x7b background: rgba(239, 68, 68, 0.12); color: #f87171; border: 1px solid rgba(239, 68, 68, 0.35); \x7d
    h1 \x7b margin: 14px 0 10px; font-size: 22px; \x7d
    p \x7b margin: 0 0 14px; line-height: 1.6; color: rgba(230,237,243,0.85); \x7d
    .hint \x7b font-size: 13px; color: rgba(230,237,243,0.6); \x7d
    .btn \x7b margin-top: 18px; width: 100%; padding: 12px 14px; border-radius: 10px; border: 1px solid rgba(255,255,255,0.12); background: rgba(255,255,255,0.06); color: #e6edf3; cursor: pointer; font-size: 14px; \x7d
    .btn:hover \x7b background: rgba(255,255,255,0.10); \x7d
  </style>
</head>
<body>
  <div class=\"card\">
    <div class=\"badge "

/-- The HTML template text between `${statusClass}` and `${statusText}`. -/
def oauthPageC : String := "\">OAuth "

/-- The HTML template text between `${statusText}` and the second
`${title}`. -/
def oauthPageD : String :=
  "</div>
    <h1>"

/-- The HTML template text between the second `${title}` and
`${safeMessage}`. -/
def oauthPageE : String :=
  "</h1>
    <p>"

/-- The HTML template text between `${safeMessage}` and `${payloadJson}`. -/
def oauthPageF : String :=
  "</p>
    <p class=\"hint\" id=\"countdown\">窗口将在 3 秒后自动关闭</p>
    <button class=\"btn\" onclick=\"closeWindow()\">关闭窗口</button>
  </div>
  <script>
    const payload = "

/-- The HTML template text after `${payloadJson}`. -/
def oauthPageG : String :=
  ";

    try \x7b
      if (window.opener && !window.opener.closed) \x7b
        window.opener.postMessage(payload, window.location.origin);
      \x7d
    \x7d catch (e) \x7b\x7d

    function closeWindow() \x7b
      window.close();
      setTimeout(() => \x7b
        if (!window.closed) \x7b
          document.getElementById(\x27countdown\x27).textContent = \x27请手动关闭此窗口\x27;
        \x7d
      \x7d, 100);
    \x7d

    let t = 3;
    const el = document.getElementById(\x27countdown\x27);
    const timer = setInterval(() => \x7b
      t -= 1;
      if (t > 0) \x7b
        el.textContent = \x27窗口将在 \x27 + t + \x27 秒后自动关闭\x27;
      \x7d else \x7b
        clearInterval(timer);
        closeWindow();
      \x7d
    \x7d, 1000);
  </script>
</body>
</html>"

/-- `renderOAuthResultPage({success, message, state})`: the full HTML
template, written as concatenation of the template-literal pieces at the
interpolation points (`${title}`, `${statusClass}`, `${statusText}`,
`${safeMessage}`, `${payloadJson}`). -/
def renderOAuthResultPage (success : Bool) (message state : String) : String :=
  let safeMessage := escapeHtml message
  let payloadJson := oauthPayloadJson state success message
  let title := if success then "OAuth 授权成功" else "OAuth 授权失败"
  let statusClass := if success then "success" else "error"
  let statusText := if success then "成功" else "失败"
  oauthPageA ++ title ++ oauthPageB ++ statusClass ++ oauthPageC ++ statusText ++
    oauthPageD ++ title ++ oauthPageE ++ safeMessage ++ oauthPageF ++ payloadJson ++
    oauthPageG

/-- Per-character HTML entity encoding, the simultaneous form of
`escapeHtml`: each of the five special characters maps to its entity,
every other character is kept verbatim. -/
def htmlEntity (c : Char) : List Char :=
  if c = '&' then "&amp;".data
  else if c = '<' then "&lt;".data
  else if c = '>' then "&gt;".data
  else if c = '"' then "&quot;".data
  else if c = '\x27' then "&#39;".data
  else [c]

/-- A public operation on the session store, with its collaborator
behaviour embedded (the exchange collaborator of a callback is fixed at
credential type `String` here). -/
inductive OAuthOp where
  | start (freshState : String) (rawPort : PortValue) (clientId : String)
  | status (state : String)
  | callback (exchange : String → String → Except String String)
      (addAccount : String → Except String Unit)
      (state code error errorDescription : String)

/-- An operation avoids the token `target` when it is not a session
creation under `target` (fresh tokens are never reused, per the store's
token-uniqueness discipline). -/
def OAuthOp.avoids (target : String) : OAuthOp → Prop
  | .start freshState _ _ => freshState ≠ target
  | _ => True

/-- Store component of running one public operation at instant `t`. -/
def runOp (store : Store) : OAuthOp → Int → Store
  | .start freshState rawPort clientId, t =>
    (startOAuthSession freshState rawPort clientId store t).2
  | .status state, t => (getOAuthStatus store state t).2
  | .callback ex ad state code error errorDescription, t =>
    (completeOAuthCallback ex ad state code error errorDescription store t).2.1

/-- Store component of running a sequence of timed public operations. -/
def runTrace (store : Store) : List (OAuthOp × Int) → Store
  | [] => store
  | (op, t) :: rest => runTrace (runOp store op t) rest

/-- Split a character list at every occurrence of `c` (the classic
query-string split; a list without `c` yields itself as the only piece). -/
def splitOnChar (c : Char) : List Char → List (List Char)
  | [] => [[]]
  | x :: xs =>
    if x = c then [] :: splitOnChar c xs
    else
      match splitOnChar c xs with
      | s :: rest => (x :: s) :: rest
      | [] => [[x]]

/-- Value of a hexadecimal digit character. -/
def hexVal (c : Char) : Option Nat :=
  if '0' ≤ c ∧ c ≤ '9' then some (c.toNat - 48)
  else if 'A' ≤ c ∧ c ≤ 'F' then some (c.toNat - 55)
  else if 'a' ≤ c ∧ c ≤ 'f' then some (c.toNat - 87)
  else none

/-- `application/x-www-form-urlencoded` character-to-byte decoding: `+`
is a space, `%`-escapes are hexadecimal bytes, any other character
stands for its own UTF-8 bytes. -/
def formDecodeChars : List Char → Option (List Nat)
  | [] => some []
  | c :: rest =>
    if c = '+' then (formDecodeChars rest).map (0x20 :: ·)
    else if c = '%' then
      match rest with
      | h1 :: h2 :: rest2 =>
        match hexVal h1, hexVal h2 with
        | some a, some b => (formDecodeChars rest2).map ((a * 16 + b) :: ·)
        | _, _ => none
      | _ => none
    else (formDecodeChars rest).map (utf8EncodeChar c ++ ·)

/-- Continuation parsing of a two-byte UTF-8 sequence headed by `b`. -/
def utf8Cont1 (b : Nat) : List Nat → Option (Nat × List Nat)
  | b2 :: bs2 =>
    if 0x80 ≤ b2 ∧ b2 < 0xC0 then
      if 0x80 ≤ (b - 0xC0) * 64 + (b2 - 0x80) then
        some ((b - 0xC0) * 64 + (b2 - 0x80), bs2)
      else none
    else none
  | [] => none

/-- Continuation parsing of a three-byte UTF-8 sequence headed by `b`. -/
def utf8Cont2 (b : Nat) : List Nat → Option (Nat × List Nat)
  | b2 :: b3 :: bs3 =>
    if (0x80 ≤ b2 ∧ b2 < 0xC0) ∧ (0x80 ≤ b3 ∧ b3 < 0xC0) then
      if 0x800 ≤ (b - 0xE0) * 4096 + (b2 - 0x80) * 64 + (b3 - 0x80) ∧
          Nat.isValidChar ((b - 0xE0) * 4096 + (b2 - 0x80) * 64 + (b3 - 0x80)) then
        some ((b - 0xE0) * 4096 + (b2 - 0x80) * 64 + (b3 - 0x80), bs3)
      else none
    else none
  | _ => none

/-- Continuation parsing of a four-byte UTF-8 sequence headed by `b`. -/
def utf8Cont3 (b : Nat) : List Nat → Option (Nat × List Nat)
  | b2 :: b3 :: b4 :: bs4 =>
    if (0x80 ≤ b2 ∧ b2 < 0xC0) ∧ (0x80 ≤ b3 ∧ b3 < 0xC0) ∧
        (0x80 ≤ b4 ∧ b4 < 0xC0) then
      if 0x10000 ≤ (b - 0xF0) * 262144 + (b2 - 0x80) * 4096 +
            (b3 - 0x80) * 64 + (b4 - 0x80) ∧
          (b - 0xF0) * 262144 + (b2 - 0x80) * 4096 +
            (b3 - 0x80) * 64 + (b4 - 0x80) < 0x110000 then
        some ((b - 0xF0) * 262144 + (b2 - 0x80) * 4096 +
          (b3 - 0x80) * 64 + (b4 - 0x80), bs4)
      else none
    else none
  | _ => none

/-- Parse one code point off the front of a byte list: strict UTF-8
(rejects overlong forms, surrogates and out-of-range code points). -/
def utf8Header : List Nat → Option (Nat × List Nat)
  | [] => none
  | b :: bs =>
    if b < 0x80 then some (b, bs)
    else if b < 0xC0 then none
    else if b < 0xE0 then utf8Cont1 b bs
    else if b < 0xF0 then utf8Cont2 b bs
    else if b < 0xF8 then utf8Cont3 b bs
    else none

theorem utf8Cont1_shrinks {b n : Nat} {bs rest : List Nat}
    (h : utf8Cont1 b bs = some (n, rest)) : rest.length < bs.length := by
  match bs with
  | [] => cases h
  | b2 :: bs2 =>
    rw [utf8Cont1] at h
    split at h
    · split at h
      · rw [Option.some.injEq, Prod.mk.injEq] at h
        obtain ⟨hn, hrest⟩ := h
        subst hrest
        simp
      · cases h
    · cases h

theorem utf8Cont2_shrinks {b n : Nat} {bs rest : List Nat}
    (h : utf8Cont2 b bs = some (n, rest)) : rest.length < bs.length := by
  match bs with
  | [] => cases h
  | [b2] => cases h
  | b2 :: b3 :: bs3 =>
    rw [utf8Cont2] at h
    split at h
    · split at h
      · rw [Option.some.injEq, Prod.mk.injEq] at h
        obtain ⟨hn, hrest⟩ := h
        subst hrest
        simp
        omega
      · cases h
    · cases h

theorem utf8Cont3_shrinks {b n : Nat} {bs rest : List Nat}
    (h : utf8Cont3 b bs = some (n, rest)) : rest.length < bs.length := by
  match bs with
  | [] => cases h
  | [b2] => cases h
  | [b2, b3] => cases h
  | b2 :: b3 :: b4 :: bs4 =>
    rw [utf8Cont3] at h
    split at h
    · split at h
      · rw [Option.some.injEq, Prod.mk.injEq] at h
        obtain ⟨hn, hrest⟩ := h
        subst hrest
        simp
        omega
      · cases h
    · cases h

theorem utf8Header_shrinks {l : List Nat} {n : Nat} {rest : List Nat}
    (h : utf8Header l = some (n, rest)) : rest.length < l.length := by
  match l with
  | [] => cases h
  | b :: bs =>
    rw [utf8Header] at h
    split at h
    · cases h; simp
    · split at h
      · cases h
      · split at h
        · exact Nat.lt_trans (utf8Cont1_shrinks h) (by simp)
        · split at h
          · exact Nat.lt_trans (utf8Cont2_shrinks h) (by simp)
          · split at h
            · exact Nat.lt_trans (utf8Cont3_shrinks h) (by simp)
            · cases h

/-- Strict UTF-8 decoding of a byte list: repeatedly parse one code point
and convert it to a character. -/
def utf8Decode (l : List Nat) : Option (List Char) :=
  match hl : l with
  | [] => some []
  | b :: bs =>
    match h : utf8Header l with
    | some (n, rest) =>
      have : rest.length < (b :: bs).length := hl ▸ utf8Header_shrinks h
      (utf8Decode rest).map (Char.ofNat n :: ·)
    | none => none
termination_by l.length

/-- Full `application/x-www-form-urlencoded` decoding of a string. -/
def formUrlDecode (s : String) : Option String :=
  match formDecodeChars s.data with
  | some bytes =>
    match utf8Decode bytes with
    | some chars => some ⟨chars⟩
    | none => none
  | none => none

/-! ### Session-store helper lemmas -/

theorem sessionLive_iff (now : Int) (v : Option OAuthSession) :
    sessionLive now v = true ↔
      ∃ s, v = some s ∧ s.createdAt ≠ 0 ∧ now - s.createdAt ≤ SESSION_TTL_MS := by
  cases v with
  | none => simp [sessionLive]
  | some s => simp [sessionLive]

theorem mem_cleanup {store : Store} {now : Int} {e : String × Option OAuthSession} :
    e ∈ cleanupExpiredSessions store now ↔ e ∈ store ∧ sessionLive now e.2 = true := by
  simp [cleanupExpiredSessions, List.mem_filter]

theorem mapGet_cleanup_sound {store : Store} {now : Int} {k : String}
    {v : Option OAuthSession} :
    mapGet (cleanupExpiredSessions store now) k = some v → sessionLive now v = true := by
  induction store with
  | nil => intro h; exact absurd h (by simp [cleanupExpiredSessions, mapGet])
  | cons e rest ih =>
    intro h
    rw [cleanupExpiredSessions, List.filter_cons] at h
    split at h
    · rw [mapGet] at h
      split at h
      · cases h
        next hl _ => exact hl
      · exact ih h
    · exact ih h

theorem mapGet_mapSet_self (store : Store) (k : String) (v : Option OAuthSession) :
    mapGet (mapSet store k v) k = some v := by
  induction store with
  | nil => simp [mapSet, mapGet]
  | cons e rest ih =>
    rw [mapSet]
    split
    · rw [mapGet]; simp
    · rw [mapGet]
      next hne =>
        simp only [if_neg hne]
        exact ih

theorem mapGet_mapSet_ne (store : Store) (k k' : String) (v : Option OAuthSession)
    (h : k ≠ k') : mapGet (mapSet store k v) k' = mapGet store k' := by
  induction store with
  | nil => simp [mapSet, mapGet, h]
  | cons e rest ih =>
    rw [mapSet]
    split
    · next heq => subst heq; rw [mapGet, mapGet]; simp [h]
    · rw [mapGet, mapGet]
      split
      · rfl
      · exact ih

theorem mapGet_none_of_not_memKey {store : Store} {k : String}
    (h : ∀ e ∈ store, e.1 ≠ k) : mapGet store k = none := by
  induction store with
  | nil => rfl
  | cons e rest ih =>
    rw [mapGet]
    rw [if_neg (h e (by simp))]
    exact ih fun x hx => h x (by simp [hx])

theorem not_memKey_of_mapGet_none {store : Store} {k : String}
    (h : mapGet store k = none) : ∀ e ∈ store, e.1 ≠ k := by
  induction store with
  | nil => simp
  | cons e rest ih =>
    rw [mapGet] at h
    intro x hx
    rcases List.mem_cons.mp hx with rfl | hx'
    · intro hk; rw [if_pos hk] at h; cases h
    · refine ih ?_ x hx'
      by_cases he : e.1 = k
      · rw [if_pos he] at h; cases h
      · rwa [if_neg he] at h

theorem mapGet_cleanup_none {store : Store} {now : Int} {k : String}
    (h : mapGet store k = none) :
    mapGet (cleanupExpiredSessions store now) k = none := by
  refine mapGet_none_of_not_memKey fun e he => ?_
  exact not_memKey_of_mapGet_none h e (mem_cleanup.mp he).1

theorem mapGet_cleanup_dead {store : Store} {now : Int} {k : String}
    {v : Option OAuthSession}
    (hnd : (store.map Prod.fst).Nodup)
    (hget : mapGet store k = some v) (hdead : sessionLive now v = false) :
    mapGet (cleanupExpiredSessions store now) k = none := by
  induction store with
  | nil => cases hget
  | cons e rest ih =>
    rw [List.map_cons, List.nodup_cons] at hnd
    rw [mapGet] at hget
    rw [cleanupExpiredSessions, List.filter_cons]
    by_cases hek : e.1 = k
    · rw [if_pos hek] at hget
      cases hget
      split
      · next hlive => rw [hdead] at hlive; cases hlive
      · refine mapGet_cleanup_none (mapGet_none_of_not_memKey fun x hx hxk => ?_)
        exact hnd.1 (by rw [hek, ← hxk]; exact List.mem_map_of_mem Prod.fst hx)
    · rw [if_neg hek] at hget
      split
      · rw [mapGet, if_neg hek]
        exact ih hnd.2 hget
      · exact ih hnd.2 hget

/-! ### Store effects of the public operations -/

theorem getOAuthStatus_store (store : Store) (state : String) (now : Int) :
    (getOAuthStatus store state now).2 = cleanupExpiredSessions store now := by
  simp only [getOAuthStatus]
  split
  · rfl
  · rfl
  · split <;> rfl

theorem completeOAuthCallback_store_cases {α : Type}
    (ex : String → String → Except String α) (ad : α → Except String Unit)
    (state code err desc : String) (store : Store) (now : Int) :
    (completeOAuthCallback ex ad state code err desc store now).2.1 =
        cleanupExpiredSessions store now ∨
      ∃ sess r, mapGet (cleanupExpiredSessions store now) state = some (some sess) ∧
        (completeOAuthCallback ex ad state code err desc store now).2.1 =
          mapSet (cleanupExpiredSessions store now) state
            (some { sess with result := some r }) := by
  simp only [completeOAuthCallback]
  split
  · left; rfl
  · split
    · left; rfl
    · left; rfl
    · next sess hget =>
      split
      · right; exact ⟨sess, _, hget, rfl⟩
      · split
        · right; exact ⟨sess, _, hget, rfl⟩
        · split
          · right; exact ⟨sess, _, hget, rfl⟩
          · split
            · right; exact ⟨sess, _, hget, rfl⟩
            · right; exact ⟨sess, _, hget, rfl⟩

theorem runOp_preserves_none {store : Store} {target : String} {op : OAuthOp} {t : Int}
    (hav : op.avoids target) (h : mapGet store target = none) :
    mapGet (runOp store op t) target = none := by
  cases op with
  | start fresh rawPort clientId =>
    simp only [runOp, startOAuthSession]
    rw [mapGet_mapSet_ne _ _ _ _ hav]
    exact mapGet_cleanup_none h
  | status s =>
    rw [runOp, getOAuthStatus_store]
    exact mapGet_cleanup_none h
  | callback ex ad state code err desc =>
    rw [runOp]
    rcases completeOAuthCallback_store_cases ex ad state code err desc store t with
      heq | ⟨sess, r, hget, heq⟩
    · rw [heq]; exact mapGet_cleanup_none h
    · rw [heq]
      have hne : state ≠ target := by
        intro hst
        rw [hst, mapGet_cleanup_none h] at hget
        cases hget
      rw [mapGet_mapSet_ne _ _ _ _ hne]
      exact mapGet_cleanup_none h

theorem runTrace_preserves_none {store : Store} {target : String}
    {trace : List (OAuthOp × Int)}
    (hav : ∀ p ∈ trace, (p.1).avoids target) (h : mapGet store target = none) :
    mapGet (runTrace store trace) target = none := by
  induction trace generalizing store with
  | nil => exact h
  | cons p rest ih =>
    rw [runTrace]
    exact ih (fun q hq => hav q (by simp [hq]))
      (runOp_preserves_none (hav p (by simp)) h)

theorem getOAuthStatus_of_none {store : Store} {state : String} {now : Int}
    (h : mapGet (cleanupExpiredSessions store now) state = none) :
    (getOAuthStatus store state now).1 = .expired "OAuth state not found or expired" := by
  simp only [getOAuthStatus, h]

theorem mem_mapSet {store : Store} {k : String} {v : Option OAuthSession}
    {e : String × Option OAuthSession} (h : e ∈ mapSet store k v) :
    e ∈ store ∨ e = (k, v) := by
  induction store with
  | nil => simp [mapSet] at h; right; exact h
  | cons f rest ih =>
    rw [mapSet] at h
    split at h
    · rcases List.mem_cons.mp h with rfl | h'
      · right; rfl
      · left; exact List.mem_cons_of_mem f h'
    · rcases List.mem_cons.mp h with rfl | h'
      · left; exact List.mem_cons_self f rest
      · rcases ih h' with h'' | h''
        · left; exact List.mem_cons_of_mem f h''
        · right; exact h''

/-- Claim C4: for every session (completed or not), once its age exceeds
the TTL, `getOAuthStatus` answers `expired`, and — because every store
operation evicts every over-age entry regardless of a terminal result —
no later sequence of public operations (with fresh tokens distinct from
this state) can ever make `getOAuthStatus` answer `pending` or
`completed` for this state again. -/
theorem getOAuthStatus_expired_forever
    (store : Store) (state : String) (sess : OAuthSession) (now : Int)
    (hnd : (store.map Prod.fst).Nodup)
    (hget : mapGet store state = some (some sess))
    (hexp : now - sess.createdAt > SESSION_TTL_MS) :
    (getOAuthStatus store state now).1 = .expired "OAuth state not found or expired" ∧
      ∀ trace : List (OAuthOp × Int), (∀ p ∈ trace, (p.1).avoids state) →
        ∀ now' : Int,
          (getOAuthStatus (runTrace (cleanupExpiredSessions store now) trace)
              state now').1 = .expired "OAuth state not found or expired" := by
  have hdead : sessionLive now (some sess) = false := by
    simp [sessionLive]
    omega
  have hnone : mapGet (cleanupExpiredSessions store now) state = none :=
    mapGet_cleanup_dead hnd hget hdead
  refine ⟨getOAuthStatus_of_none hnone, fun trace hav now' => ?_⟩
  exact getOAuthStatus_of_none
    (mapGet_cleanup_none (runTrace_preserves_none hav hnone))

theorem getOAuthStatus_expired_forever_witness :
    (getOAuthStatus [("s", some ⟨1, "u", none⟩)] "s" 1800002).1 =
        .expired "OAuth state not found or expired" ∧
      (getOAuthStatus
          (runTrace (cleanupExpiredSessions [("s", some ⟨1, "u", none⟩)] 1800002)
            [(OAuthOp.status "s", 10), (OAuthOp.start "x" .undefined "cid", 20)])
          "s" 99).1 = .expired "OAuth state not found or expired" := by
  have h := getOAuthStatus_expired_forever [("s", some ⟨1, "u", none⟩)] "s"
    ⟨1, "u", none⟩ 1800002 (by decide) (by decide) (by decide)
  refine ⟨h.1, h.2 [(OAuthOp.status "s", 10), (OAuthOp.start "x" .undefined "cid", 20)]
    (fun p hp => ?_) 99⟩
  rcases List.mem_cons.mp hp with rfl | hp'
  · trivial
  · rcases List.mem_cons.mp hp' with rfl | hp''
    · exact (by decide : "x" ≠ "s")
    · cases hp''

/-- Claim C10: after any public operation has run its eviction step, every
entry remaining in the store holds a truthy session with a truthy
`createdAt` and age at most the TTL; in particular this holds of the
store produced by `getOAuthStatus` and of the store produced by
`completeOAuthCallback` (whose only further write keeps `createdAt`). -/
theorem cleanup_post_eviction_invariant {α : Type}
    (ex : String → String → Except String α) (ad : α → Except String Unit)
    (state code err desc k : String) (store : Store) (now : Int) :
    (∀ e ∈ cleanupExpiredSessions store now,
        ∃ s, e.2 = some s ∧ s.createdAt ≠ 0 ∧ now - s.createdAt ≤ SESSION_TTL_MS) ∧
      (∀ e ∈ (getOAuthStatus store k now).2,
        ∃ s, e.2 = some s ∧ s.createdAt ≠ 0 ∧ now - s.createdAt ≤ SESSION_TTL_MS) ∧
      (∀ e ∈ (completeOAuthCallback ex ad state code err desc store now).2.1,
        ∃ s, e.2 = some s ∧ s.createdAt ≠ 0 ∧ now - s.createdAt ≤ SESSION_TTL_MS) := by
  have base : ∀ e ∈ cleanupExpiredSessions store now,
      ∃ s, e.2 = some s ∧ s.createdAt ≠ 0 ∧ now - s.createdAt ≤ SESSION_TTL_MS := by
    intro e he
    exact (sessionLive_iff now e.2).mp (mem_cleanup.mp he).2
  refine ⟨base, ?_, ?_⟩
  · rw [getOAuthStatus_store]; exact base
  · rcases completeOAuthCallback_store_cases ex ad state code err desc store now with
      heq | ⟨sess, r, hget, heq⟩
    · rw [heq]; exact base
    · rw [heq]
      intro e he
      rcases mem_mapSet he with h' | rfl
      · exact base e h'
      · rcases (sessionLive_iff now (some sess)).mp (mapGet_cleanup_sound hget) with
          ⟨s, hs, h1, h2⟩
      
        cases hs
        exact ⟨{ sess with result := some r }, rfl, h1, h2⟩

theorem cleanup_post_eviction_invariant_witness :
    ∃ s, ((("k", some (⟨5, "u", none⟩ : OAuthSession)) :
          String × Option OAuthSession).2 = some s ∧
        s.createdAt ≠ 0 ∧ (6 : Int) - s.createdAt ≤ SESSION_TTL_MS) := by
  exact (cleanup_post_eviction_invariant (fun _ _ => Except.ok ())
      (fun _ => Except.ok ()) "st" "c" "" "" "k"
      [("k", some ⟨5, "u", none⟩)] 6).1 ("k", some ⟨5, "u", none⟩) (by decide)

theorem mapGet_cleanup_live {store : Store} (now : Int) {k : String}
    {v : Option OAuthSession}
    (hget : mapGet store k = some v) (hlive : sessionLive now v = true) :
    mapGet (cleanupExpiredSessions store now) k = some v := by
  induction store with
  | nil => cases hget
  | cons e rest ih =>
    rw [mapGet] at hget
    rw [cleanupExpiredSessions, List.filter_cons]
    by_cases hek : e.1 = k
    · rw [if_pos hek] at hget
      cases hget
      split
      · rw [mapGet, if_pos hek]
      · next hcon => exact absurd hlive hcon
    · rw [if_neg hek] at hget
      split
      · rw [mapGet, if_neg hek]; exact ih hget
      · exact ih hget

theorem completeOAuthCallback_present_store {α : Type}
    (ex : String → String → Except String α) (ad : α → Except String Unit)
    (state code err desc : String) (store : Store) (now : Int) (sess : OAuthSession)
    (hget : mapGet (cleanupExpiredSessions store now) state = some (some sess))
    (hst : state ≠ "") :
    (completeOAuthCallback ex ad state code err desc store now).2.1 =
      mapSet (cleanupExpiredSessions store now) state
        (some { sess with
          result := some (completeOAuthCallback ex ad state code err desc store now).1 }) := by
  simp only [completeOAuthCallback, hget, if_neg hst]
  split
  · rfl
  · split
    · rfl
    · split
      · rfl
      · split
        · rfl
        · rfl

theorem completeOAuthCallback_calls_cases {α : Type}
    (ex : String → String → Except String α) (ad : α → Except String Unit)
    (state code err desc : String) (store : Store) (now : Int) :
    (completeOAuthCallback ex ad state code err desc store now).2.2 = [] ∨
      ∃ sess, mapGet (cleanupExpiredSessions store now) state = some (some sess) ∧
        code ≠ "" ∧
        (completeOAuthCallback ex ad state code err desc store now).2.2 =
          [(code, sess.redirectUri)] := by
  simp only [completeOAuthCallback]
  split
  · left; rfl
  · split
    · left; rfl
    · left; rfl
    · next sess hget =>
      split
      · left; rfl
      · split
        · left; rfl
        · next hcode =>
          split
          · right; exact ⟨sess, hget, by simpa using hcode, rfl⟩
          · split
            · right; exact ⟨sess, hget, by simpa using hcode, rfl⟩
            · right; exact ⟨sess, hget, by simpa using hcode, rfl⟩

/-- Claim C3: a `completeOAuthCallback` call with a non-empty state that is
absent from the store after lazy eviction returns `{success: false}` with
the expired-style message, regardless of `code`, `error` and
`errorDescription`, performs no token exchange, and leaves the store at
its evicted value. -/
theorem completeOAuthCallback_absent_state_expired {α : Type}
    (ex : String → String → Except String α) (ad : α → Except String Unit)
    (state code err desc : String) (store : Store) (now : Int)
    (hst : state ≠ "")
    (habs : mapGet (cleanupExpiredSessions store now) state = none) :
    completeOAuthCallback ex ad state code err desc store now =
      ({ success := false, message := "OAuth state not found or expired" },
        cleanupExpiredSessions store now, []) := by
  simp only [completeOAuthCallback, habs, if_neg hst]

theorem completeOAuthCallback_absent_state_expired_witness :
    completeOAuthCallback (fun _ _ => (Except.ok () : Except String Unit))
        (fun _ => Except.ok ()) "s" "c" "e" "d" [] 0 =
      ({ success := false, message := "OAuth state not found or expired" }, [], []) := by
  exact completeOAuthCallback_absent_state_expired (fun _ _ => Except.ok ())
    (fun _ => Except.ok ()) "s" "c" "e" "d" [] 0 (by decide) (by decide)

/-- Counterexample to claim C2 as stated: in the absent-session branch the
returned terminal result is not written anywhere, and the subsequent poll
answers `expired`, not `completed` with the returned values. -/
theorem completeOAuthCallback_unwritten_result_cex :
    (completeOAuthCallback (fun _ _ => (Except.ok () : Except String Unit))
        (fun _ => Except.ok ()) "s" "c" "" "" [] 0).1 =
      { success := false, message := "OAuth state not found or expired" } ∧
      (getOAuthStatus
          (completeOAuthCallback (fun _ _ => (Except.ok () : Except String Unit))
            (fun _ => Except.ok ()) "s" "c" "" "" [] 0).2.1 "s" 0).1 ≠
        .completed false "OAuth state not found or expired" := by
  decide

/-- Claim C2 (amended to the branches in which the session exists): in
every branch of `completeOAuthCallback` that finds a session for the
state after lazy eviction, the terminal result returned to the caller is
first written into that session's `result` field in the store, so that a
later `getOAuthStatus` before TTL expiry answers `completed` with exactly
the same `success` and `message`. -/
theorem completeOAuthCallback_writes_result_when_session_present {α : Type}
    (ex : String → String → Except String α) (ad : α → Except String Unit)
    (state code err desc : String) (store : Store) (now : Int) (sess : OAuthSession)
    (r : OAuthResult) (st' : Store) (calls : List (String × String))
    (hget : mapGet (cleanupExpiredSessions store now) state = some (some sess))
    (hst : state ≠ "")
    (hrun : completeOAuthCallback ex ad state code err desc store now = (r, st', calls)) :
    mapGet st' state = some (some { sess with result := some r }) ∧
      ∀ now' : Int, now' - sess.createdAt ≤ SESSION_TTL_MS →
        (getOAuthStatus st' state now').1 = .completed r.success r.message := by
  have hstore := completeOAuthCallback_present_store ex ad state code err desc
    store now sess hget hst
  rw [hrun] at hstore
  dsimp only at hstore
  have hget' : mapGet st' state = some (some { sess with result := some r }) := by
    rw [hstore]
    exact mapGet_mapSet_self _ _ _
  have hcreated : sess.createdAt ≠ 0 := by
    rcases (sessionLive_iff now (some sess)).mp (mapGet_cleanup_sound hget) with
      ⟨s, hs, h1, _⟩
    cases hs
    exact h1
  refine ⟨hget', fun now' hnow' => ?_⟩
  have hlive : sessionLive now' (some { sess with result := some r }) = true := by
    simp [sessionLive]
    exact ⟨hcreated, by omega⟩
  have := mapGet_cleanup_live now' hget' hlive
  simp only [getOAuthStatus, this]

theorem completeOAuthCallback_writes_result_when_session_present_witness :
    mapGet
        (completeOAuthCallback (fun _ _ => (Except.ok () : Except String Unit))
          (fun _ => Except.ok ()) "s" "" "deny" "why"
          [("s", some ⟨5, "u", none⟩)] 6).2.1 "s" =
      some (some ⟨5, "u", some { success := false, message := "授权失败: why" }⟩) ∧
      (getOAuthStatus
          (completeOAuthCallback (fun _ _ => (Except.ok () : Except String Unit))
            (fun _ => Except.ok ()) "s" "" "deny" "why"
            [("s", some ⟨5, "u", none⟩)] 6).2.1 "s" 7).1 =
        .completed false "授权失败: why" := by
  have h := completeOAuthCallback_writes_result_when_session_present
    (fun _ _ => (Except.ok () : Except String Unit)) (fun _ => Except.ok ())
    "s" "" "deny" "why" [("s", some ⟨5, "u", none⟩)] 6 ⟨5, "u", none⟩
    { success := false, message := "授权失败: why" } _ _
    (by decide) (by decide) rfl
  exact ⟨h.1, h.2 7 (by decide)⟩

/-- Claim C8: whenever `completeOAuthCallback` reaches the token exchange,
the `redirectUri` argument handed to the exchange collaborator is exactly
the one recorded in the stored session, and the callback never alters any
session's recorded `redirectUri` or `createdAt`. -/
theorem completeOAuthCallback_exchange_uses_stored_redirectUri {α : Type}
    (ex : String → String → Except String α) (ad : α → Except String Unit)
    (state code err desc : String) (store : Store) (now : Int) :
    (∀ pr ∈ (completeOAuthCallback ex ad state code err desc store now).2.2,
        ∃ sess, mapGet (cleanupExpiredSessions store now) state = some (some sess) ∧
          pr = (code, sess.redirectUri)) ∧
      ∀ k sess',
        mapGet (completeOAuthCallback ex ad state code err desc store now).2.1 k =
            some (some sess') →
          ∃ sess, mapGet (cleanupExpiredSessions store now) k = some (some sess) ∧
            sess'.redirectUri = sess.redirectUri ∧ sess'.createdAt = sess.createdAt := by
  constructor
  · intro pr hpr
    rcases completeOAuthCallback_calls_cases ex ad state code err desc store now with
      hc | ⟨sess, hget, _, hc⟩
    · rw [hc] at hpr; cases hpr
    · rw [hc] at hpr
      rcases List.mem_cons.mp hpr with rfl | h'
      · exact ⟨sess, hget, rfl⟩
      · cases h'
  · intro k sess' hk
    rcases completeOAuthCallback_store_cases ex ad state code err desc store now with
      heq | ⟨sess, r, hget, heq⟩
    · rw [heq] at hk
      exact ⟨sess', hk, rfl, rfl⟩
    · rw [heq] at hk
      by_cases hks : state = k
      · subst hks
        rw [mapGet_mapSet_self] at hk
        cases hk
        exact ⟨sess, hget, rfl, rfl⟩
      · rw [mapGet_mapSet_ne _ _ _ _ hks] at hk
        exact ⟨sess', hk, rfl, rfl⟩

theorem completeOAuthCallback_exchange_uses_stored_redirectUri_witness :
    ∃ sess,
      mapGet (cleanupExpiredSessions [("s", some ⟨5, "http://localhost:3000/oauth-callback", none⟩)] 6)
          "s" = some (some sess) ∧
        (("c", "http://localhost:3000/oauth-callback") : String × String) =
          (("c" : String), sess.redirectUri) := by
  exact (completeOAuthCallback_exchange_uses_stored_redirectUri
      (fun _ _ => (Except.ok () : Except String Unit)) (fun _ => Except.ok ())
      "s" "c" "" "" [("s", some ⟨5, "http://localhost:3000/oauth-callback", none⟩)] 6).1
    ("c", "http://localhost:3000/oauth-callback") (by decide)

/-- Claim C9: `completeOAuthCallback` never lets a failure cross its
boundary: whatever the arguments and whatever the collaborators do
(including throwing), the returned value is one of the structured
`{success, message}` results, and a collaborator throw on the exchange
path is converted into the structured exchange-failure message. -/
theorem completeOAuthCallback_structured_result {α : Type}
    (ex : String → String → Except String α) (ad : α → Except String Unit)
    (state code err desc : String) (store : Store) (now : Int) :
    ((completeOAuthCallback ex ad state code err desc store now).1 =
          { success := false, message := "Missing state" } ∨
        (completeOAuthCallback ex ad state code err desc store now).1 =
          { success := false, message := "OAuth state not found or expired" } ∨
        (∃ d, (completeOAuthCallback ex ad state code err desc store now).1 =
          { success := false, message := "授权失败: " ++ d }) ∨
        (completeOAuthCallback ex ad state code err desc store now).1 =
          { success := false, message := "Missing code" } ∨
        (completeOAuthCallback ex ad state code err desc store now).1 =
          { success := true, message := "授权成功" } ∨
        (∃ m, (completeOAuthCallback ex ad state code err desc store now).1 =
          { success := false, message := "获取 token 失败: " ++ m })) ∧
      (∀ sess m, state ≠ "" →
        mapGet (cleanupExpiredSessions store now) state = some (some sess) →
        err = "" → code ≠ "" → ex code sess.redirectUri = .error m →
        (completeOAuthCallback ex ad state code err desc store now).1 =
          { success := false, message := "获取 token 失败: " ++ m }) ∧
      (∀ sess creds m, state ≠ "" →
        mapGet (cleanupExpiredSessions store now) state = some (some sess) →
        err = "" → code ≠ "" → ex code sess.redirectUri = .ok creds →
        ad creds = .error m →
        (completeOAuthCallback ex ad state code err desc store now).1 =
          { success := false, message := "获取 token 失败: " ++ m }) := by
  refine ⟨?_, ?_, ?_⟩
  · simp only [completeOAuthCallback]
    split
    · left; rfl
    · split
      · right; left; rfl
      · right; left; rfl
      · split
        · right; right; left; exact ⟨_, rfl⟩
        · split
          · right; right; right; left; rfl
          · split
            · right; right; right; right; right; exact ⟨_, rfl⟩
            · split
              · right; right; right; right; right; exact ⟨_, rfl⟩
              · right; right; right; right; left; rfl
  · intro sess m hst hget herr hcode hex
    subst herr
    simp only [completeOAuthCallback, hget, if_neg hst, hex,
      if_neg (show ¬(("" : String) ≠ "") by simp), if_neg hcode]
  · intro sess creds m hst hget herr hcode hex had
    subst herr
    simp only [completeOAuthCallback, hget, if_neg hst, hex, had,
      if_neg (show ¬(("" : String) ≠ "") by simp), if_neg hcode]

theorem completeOAuthCallback_structured_result_witness :
    (completeOAuthCallback (fun _ _ => (Except.error "boom" : Except String Unit))
        (fun _ => Except.ok ()) "s" "c" "" "" [("s", some ⟨5, "u", none⟩)] 6).1 =
      { success := false, message := "获取 token 失败: boom" } := by
  exact (completeOAuthCallback_structured_result
      (fun _ _ => (Except.error "boom" : Except String Unit)) (fun _ => Except.ok ())
      "s" "c" "" "" [("s", some ⟨5, "u", none⟩)] 6).2.1 ⟨5, "u", none⟩ "boom"
    (by decide) (by decide) rfl (by decide) rfl

/-- Claim C1 is refuted by the source: `completeOAuthCallback` has no
`session.result != null` guard, so a second callback carrying the same
state and a valid code re-triggers the token exchange even though the
session's `result` is already terminal.  Here the first call performs one
exchange and stores the terminal success result, and the second,
identical call on the resulting store performs a second exchange. -/
theorem completeOAuthCallback_reexchanges_after_terminal :
    (completeOAuthCallback (fun _ _ => (Except.ok "tok" : Except String String))
        (fun _ => Except.ok ()) "s" "c" "" "" [("s", some ⟨5, "u", none⟩)] 6).2.2.length = 1 ∧
      mapGet
          (completeOAuthCallback (fun _ _ => (Except.ok "tok" : Except String String))
            (fun _ => Except.ok ()) "s" "c" "" "" [("s", some ⟨5, "u", none⟩)] 6).2.1 "s" =
        some (some ⟨5, "u", some { success := true, message := "授权成功" }⟩) ∧
      (completeOAuthCallback (fun _ _ => (Except.ok "tok" : Except String String))
          (fun _ => Except.ok ()) "s" "c" "" ""
          (completeOAuthCallback (fun _ _ => (Except.ok "tok" : Except String String))
            (fun _ => Except.ok ()) "s" "c" "" "" [("s", some ⟨5, "u", none⟩)] 6).2.1
          7).2.2.length = 1 := by
  decide

/-- Claim C5: `startOAuthSession` never fails: for every raw port value it
returns `redirect_uri = "http://localhost:<port>/oauth-callback"` where
`<port>` is the configured port when it resolves to a finite number
(numbers directly, trimmed numeric strings through `parseInt`) and `3000`
otherwise, and it inserts exactly one pending session (null `result`)
under the returned state, leaving every other key at its evicted value. -/
theorem startOAuthSession_total_spec
    (freshState : String) (rawPort : PortValue) (clientId : String)
    (store : Store) (now : Int) :
    (startOAuthSession freshState rawPort clientId store now).1.redirect_uri =
        "http://localhost:" ++ toString (resolveServerPort rawPort) ++ "/oauth-callback" ∧
      (∀ v : Int, rawPort = .num true v → resolveServerPort rawPort = v) ∧
      (∀ s v, rawPort = .str s → parseIntDec (jsTrim s) = some v →
        resolveServerPort rawPort = v) ∧
      (∀ s, rawPort = .str s → parseIntDec (jsTrim s) = none →
        resolveServerPort rawPort = 3000) ∧
      (∀ v, rawPort = .num false v → resolveServerPort rawPort = 3000) ∧
      (rawPort = .undefined → resolveServerPort rawPort = 3000) ∧
      (rawPort = .other → resolveServerPort rawPort = 3000) ∧
      (startOAuthSession freshState rawPort clientId store now).1.state = freshState ∧
      (startOAuthSession freshState rawPort clientId store now).1.expires_in_ms =
        SESSION_TTL_MS ∧
      mapGet (startOAuthSession freshState rawPort clientId store now).2 freshState =
        some (some ⟨now,
          "http://localhost:" ++ toString (resolveServerPort rawPort) ++ "/oauth-callback",
          none⟩) ∧
      ∀ k, freshState ≠ k →
        mapGet (startOAuthSession freshState rawPort clientId store now).2 k =
          mapGet (cleanupExpiredSessions store now) k := by
  refine ⟨rfl, ?_, ?_, ?_, ?_, ?_, ?_, rfl, rfl, ?_, ?_⟩
  · intro v h; subst h; rfl
  · intro s v hs hp
    subst hs
    simp only [resolveServerPort]
    by_cases htrim : jsTrim s = ""
    · rw [htrim] at hp; cases hp
    · rw [if_pos htrim, hp]
  · intro s hs hp
    subst hs
    simp only [resolveServerPort]
    by_cases htrim : jsTrim s = ""
    · rw [if_neg (by simpa using htrim)]
    · rw [if_pos htrim, hp]
  · intro v h; subst h; rfl
  · intro h; subst h; rfl
  · intro h; subst h; rfl
  · exact mapGet_mapSet_self _ _ _
  · intro k hk
    exact mapGet_mapSet_ne _ _ _ _ hk

theorem startOAuthSession_total_spec_witness :
    (startOAuthSession "t" (.num true 3000) "cid" [] 5).1.redirect_uri =
        "http://localhost:3000/oauth-callback" ∧
      resolveServerPort (.str " 8080 ") = 8080 := by
  constructor
  · have h := startOAuthSession_total_spec "t" (.num true 3000) "cid" [] 5
    rw [h.1]
    decide
  · have h := startOAuthSession_total_spec "t" (.str " 8080 ") "cid" [] 5
    exact h.2.2.1 " 8080 " 8080 rfl (by decide)

/-! ### HTML escaping lemmas -/

theorem escapeHtml_data (s : String) :
    (escapeHtml s).data = s.data.flatMap htmlEntity := by
  show (((((s.data.flatMap fun x => if x = '&' then "&amp;".data else [x]).flatMap
      fun x => if x = '<' then "&lt;".data else [x]).flatMap
      fun x => if x = '>' then "&gt;".data else [x]).flatMap
      fun x => if x = '"' then "&quot;".data else [x]).flatMap
      fun x => if x = '\x27' then "&#39;".data else [x]) = s.data.flatMap htmlEntity
  generalize s.data = l
  induction l with
  | nil => rfl
  | cons c l ih =>
    simp only [List.flatMap_cons, List.flatMap_append, ih]
    congr 1
    by_cases h1 : c = '&'
    · subst h1; rfl
    by_cases h2 : c = '<'
    · subst h2; rfl
    by_cases h3 : c = '>'
    · subst h3; rfl
    by_cases h4 : c = '"'
    · subst h4; rfl
    by_cases h5 : c = '\x27'
    · subst h5; rfl
    simp [htmlEntity, h1, h2, h3, h4, h5]

theorem htmlEntity_no_special (a : Char) :
    ∀ x ∈ htmlEntity a, x ≠ '<' ∧ x ≠ '>' ∧ x ≠ '"' ∧ x ≠ '\x27' := by
  unfold htmlEntity
  split
  · decide
  · split
    · decide
    · split
      · decide
      · split
        · decide
        · split
          · decide
          · next h1 h2 h3 h4 h5 =>
              intro x hx
              rcases List.mem_singleton.mp hx with rfl
              exact ⟨h2, h3, h4, h5⟩

theorem escapeHtml_no_special (s : String) :
    ∀ x ∈ (escapeHtml s).data, x ≠ '<' ∧ x ≠ '>' ∧ x ≠ '"' ∧ x ≠ '\x27' := by
  rw [escapeHtml_data]
  intro x hx
  rcases List.mem_flatMap.mp hx with ⟨a, _, hxa⟩
  exact htmlEntity_no_special a x hxa

theorem oauthPayloadJson_no_lt (state : String) (success : Bool) (message : String) :
    '<' ∉ (oauthPayloadJson state success message).data := by
  intro h
  rcases List.mem_flatMap.mp h with ⟨a, _, hfa⟩
  by_cases hac : a = '<'
  · rw [if_pos hac] at hfa
    exact (by decide : '<' ∉ "\\u003c".data) hfa
  · rw [if_neg hac] at hfa
    exact hac (List.mem_singleton.mp hfa).symm

/-- Claim C7: for every message (including ones containing `<`, `"`, `'`
or `</script>`), the page built by `renderOAuthResultPage` embeds the
message only in escaped form: the displayed message is the HTML-entity
encoding of the message (so it contains no raw `<`, `>`, `"` or `'`), and
the inline JSON payload contains no `<` at all. -/
theorem renderOAuthResultPage_escapes (success : Bool) (message state : String) :
    ∃ pre mid post : List Char,
      (renderOAuthResultPage success message state).data =
        pre ++ (escapeHtml message).data ++ mid ++
          (oauthPayloadJson state success message).data ++ post ∧
      (escapeHtml message).data = message.data.flatMap htmlEntity ∧
      (∀ x ∈ (escapeHtml message).data, x ≠ '<' ∧ x ≠ '>' ∧ x ≠ '"' ∧ x ≠ '\x27') ∧
      '<' ∉ (oauthPayloadJson state success message).data := by
  refine ⟨(oauthPageA ++ (if success then "OAuth 授权成功" else "OAuth 授权失败") ++
      oauthPageB ++ (if success then "success" else "error") ++ oauthPageC ++
      (if success then "成功" else "失败") ++ oauthPageD ++
      (if success then "OAuth 授权成功" else "OAuth 授权失败") ++ oauthPageE).data,
    oauthPageF.data, oauthPageG.data, ?_, escapeHtml_data message,
    escapeHtml_no_special message, oauthPayloadJson_no_lt state success message⟩
  simp only [renderOAuthResultPage, String.data_append, List.append_assoc]

theorem renderOAuthResultPage_escapes_witness :
    '<' ∉ (oauthPayloadJson "s" true "</script>").data := by
  obtain ⟨pre, mid, post, _, _, _, h4⟩ :=
    renderOAuthResultPage_escapes true "</script>" "s"
  exact h4

/-! ### URL-encoding lemmas -/

theorem char_toNat_lt (c : Char) : c.toNat < 1114112 := by
  rcases c.valid with h | h <;> simp [Char.toNat] <;> omega

theorem char_isValidChar (c : Char) : Nat.isValidChar c.toNat := by
  have := c.valid
  simpa [Char.toNat, UInt32.isValidChar] using this

theorem utf8EncodeChar_lt (c : Char) : ∀ b ∈ utf8EncodeChar c, b < 256 := by
  have h := char_toNat_lt c
  simp only [utf8EncodeChar]
  split
  · intro b hb
    rcases List.mem_singleton.mp hb with rfl
    omega
  · split
    · intro b hb
      simp only [List.mem_cons, List.not_mem_nil, or_false] at hb
      rcases hb with rfl | rfl <;> omega
    · split
      · intro b hb
        simp only [List.mem_cons, List.not_mem_nil, or_false] at hb
        rcases hb with rfl | rfl | rfl <;> omega
      · intro b hb
        simp only [List.mem_cons, List.not_mem_nil, or_false] at hb
        rcases hb with rfl | rfl | rfl | rfl <;> omega

set_option maxRecDepth 8192 in
theorem formEncodeByte_no_sep :
    ∀ b, b < 256 → ∀ x ∈ formEncodeByte b, x ≠ '&' ∧ x ≠ '=' := by
  decide

theorem formUrlEncode_no_sep (v : String) :
    ∀ x ∈ (formUrlEncode v).data, x ≠ '&' ∧ x ≠ '=' := by
  intro x hx
  replace hx : x ∈ v.data.flatMap fun c => (utf8EncodeChar c).flatMap formEncodeByte := hx
  rcases List.mem_flatMap.mp hx with ⟨c, _, hx2⟩
  rcases List.mem_flatMap.mp hx2 with ⟨b, hb, hx3⟩
  exact formEncodeByte_no_sep b (utf8EncodeChar_lt c b hb) x hx3

/-! ### Query-string splitting lemmas -/

theorem splitOnChar_of_not_mem {c : Char} {l : List Char} (h : c ∉ l) :
    splitOnChar c l = [l] := by
  induction l with
  | nil => rfl
  | cons x xs ih =>
    have hx : ¬ x = c := fun hx => h (by rw [hx]; exact List.mem_cons_self c xs)
    have htail : c ∉ xs := fun hc => h (List.mem_cons_of_mem x hc)
    rw [splitOnChar, if_neg hx, ih htail]

theorem splitOnChar_append {c : Char} {a : List Char} (h : c ∉ a) (b : List Char) :
    splitOnChar c (a ++ c :: b) = a :: splitOnChar c b := by
  induction a with
  | nil => rw [List.nil_append, splitOnChar, if_pos rfl]
  | cons x xs ih =>
    have hx : ¬ x = c := fun hx => h (by rw [hx]; exact List.mem_cons_self c xs)
    have htail : c ∉ xs := fun hc => h (List.mem_cons_of_mem x hc)
    rw [List.cons_append, splitOnChar, if_neg hx, ih htail]

theorem splitOnChar_serializeParams :
    ∀ ps : List (String × String), ps ≠ [] → (∀ p ∈ ps, ('&' : Char) ∉ paramSeg p) →
      splitOnChar '&' (serializeParams ps) = ps.map paramSeg
  | [], h, _ => absurd rfl h
  | [p], _, hfree => by
    have : serializeParams [p] = paramSeg p := rfl
    rw [this]
    exact splitOnChar_of_not_mem (hfree p (by simp))
  | p :: q :: rest, _, hfree => by
    have : serializeParams (p :: q :: rest) =
        paramSeg p ++ '&' :: serializeParams (q :: rest) := rfl
    rw [this, splitOnChar_append (hfree p (by simp)) _,
      splitOnChar_serializeParams (q :: rest) (by simp)
        (fun r hr => hfree r (List.mem_cons_of_mem p hr))]
    rfl

theorem amp_not_mem_paramSeg {k v : String} (hk : ('&' : Char) ∉ k.data) :
    ('&' : Char) ∉ paramSeg (k, v) := by
  intro h
  rcases List.mem_append.mp h with h | h
  · exact hk h
  · rcases List.mem_cons.mp h with h | h
    · exact absurd h (by decide)
    · exact (formUrlEncode_no_sep v '&' h).1 rfl

/-! ### Decoding round-trip lemmas -/

theorem hexVal_hexDigitU : ∀ n, n < 16 → hexVal (hexDigitU n) = some n := by
  decide

set_option maxRecDepth 8192 in
theorem safeByte_facts :
    ∀ b, b < 256 → isSafeByte b = true →
      Char.ofNat b ≠ '+' ∧ Char.ofNat b ≠ '%' ∧ utf8EncodeChar (Char.ofNat b) = [b] := by
  decide

theorem formDecodeChars_encodeByte (b : Nat) (hb : b < 256) (rest : List Char) :
    formDecodeChars (formEncodeByte b ++ rest) = (formDecodeChars rest).map (b :: ·) := by
  by_cases hs : isSafeByte b
  · obtain ⟨hp, hpc, hu⟩ := safeByte_facts b hb hs
    have he : formEncodeByte b = [Char.ofNat b] := by rw [formEncodeByte, if_pos hs]
    rw [he, List.singleton_append, formDecodeChars.eq_def]
    dsimp only
    rw [if_neg hp, if_neg hpc, hu]
    cases formDecodeChars rest <;> rfl
  · by_cases h20 : b = 0x20
    · subst h20
      have he : formEncodeByte 32 = ['+'] := by
        rw [formEncodeByte, if_neg hs, if_pos rfl]
      rw [he, List.singleton_append, formDecodeChars.eq_def]
      dsimp only
      rw [if_pos rfl]
    · have he : formEncodeByte b = ['%', hexDigitU (b / 16), hexDigitU (b % 16)] := by
        rw [formEncodeByte, if_neg hs, if_neg h20]
      rw [he]
      show formDecodeChars ('%' :: hexDigitU (b / 16) :: hexDigitU (b % 16) :: rest) = _
      rw [formDecodeChars.eq_def]
      dsimp only
      rw [if_neg (by decide : ¬('%' = '+')), if_pos rfl,
        hexVal_hexDigitU (b / 16) (by omega), hexVal_hexDigitU (b % 16) (by omega)]
      dsimp only
      have harith : b / 16 * 16 + b % 16 = b := by omega
      rw [harith]

theorem formDecodeChars_encodeBytes (bytes : List Nat) (h : ∀ b ∈ bytes, b < 256)
    (rest : List Char) :
    formDecodeChars (bytes.flatMap formEncodeByte ++ rest) =
      (formDecodeChars rest).map (bytes ++ ·) := by
  induction bytes with
  | nil =>
    simp only [List.flatMap_nil, List.nil_append]
    cases formDecodeChars rest <;> rfl
  | cons b bs ih =>
    rw [List.flatMap_cons, List.append_assoc,
      formDecodeChars_encodeByte b (h b (by simp)) _,
      ih (fun x hx => h x (by simp [hx]))]
    cases formDecodeChars rest <;> rfl

theorem utf8Header_encodeChar (c : Char) (rest : List Nat) :
    utf8Header (utf8EncodeChar c ++ rest) = some (c.toNat, rest) := by
  have hlt := char_toNat_lt c
  have hvalid := char_isValidChar c
  by_cases h1 : c.toNat < 0x80
  · have he : utf8EncodeChar c = [c.toNat] := by
      simp only [utf8EncodeChar]
      rw [if_pos h1]
    rw [he, List.singleton_append, utf8Header, if_pos h1]
  · by_cases h2 : c.toNat < 0x800
    · have he : utf8EncodeChar c = [0xC0 + c.toNat / 64, 0x80 + c.toNat % 64] := by
        simp only [utf8EncodeChar]
        rw [if_neg h1, if_pos h2]
      rw [he]
      show utf8Header ((0xC0 + c.toNat / 64) :: (0x80 + c.toNat % 64) :: rest) = _
      rw [utf8Header, if_neg (by omega), if_neg (by omega), if_pos (by omega), utf8Cont1,
        if_pos (by omega : (0x80 : Nat) ≤ 0x80 + c.toNat % 64 ∧ 0x80 + c.toNat % 64 < 0xC0)]
      have harith : (0xC0 + c.toNat / 64 - 0xC0) * 64 + (0x80 + c.toNat % 64 - 0x80) =
          c.toNat := by omega
      rw [harith, if_pos (by omega)]
    · by_cases h3 : c.toNat < 0x10000
      · have he : utf8EncodeChar c =
            [0xE0 + c.toNat / 4096, 0x80 + c.toNat / 64 % 64, 0x80 + c.toNat % 64] := by
          simp only [utf8EncodeChar]
          rw [if_neg h1, if_neg h2, if_pos h3]
        rw [he]
        show utf8Header ((0xE0 + c.toNat / 4096) :: (0x80 + c.toNat / 64 % 64) ::
          (0x80 + c.toNat % 64) :: rest) = _
        rw [utf8Header, if_neg (by omega), if_neg (by omega), if_neg (by omega),
          if_pos (by omega), utf8Cont2,
          if_pos (by omega : ((0x80 : Nat) ≤ 0x80 + c.toNat / 64 % 64 ∧
              0x80 + c.toNat / 64 % 64 < 0xC0) ∧
            (0x80 : Nat) ≤ 0x80 + c.toNat % 64 ∧ 0x80 + c.toNat % 64 < 0xC0)]
        have harith : (0xE0 + c.toNat / 4096 - 0xE0) * 4096 +
            (0x80 + c.toNat / 64 % 64 - 0x80) * 64 + (0x80 + c.toNat % 64 - 0x80) =
            c.toNat := by omega
        rw [harith, if_pos ⟨by omega, hvalid⟩]
      · have he : utf8EncodeChar c =
            [0xF0 + c.toNat / 262144, 0x80 + c.toNat / 4096 % 64,
              0x80 + c.toNat / 64 % 64, 0x80 + c.toNat % 64] := by
          simp only [utf8EncodeChar]
          rw [if_neg h1, if_neg h2, if_neg h3]
        rw [he]
        show utf8Header ((0xF0 + c.toNat / 262144) :: (0x80 + c.toNat / 4096 % 64) ::
          (0x80 + c.toNat / 64 % 64) :: (0x80 + c.toNat % 64) :: rest) = _
        rw [utf8Header, if_neg (by omega), if_neg (by omega), if_neg (by omega),
          if_neg (by omega), if_pos (by omega), utf8Cont3,
          if_pos (by omega : ((0x80 : Nat) ≤ 0x80 + c.toNat / 4096 % 64 ∧
              0x80 + c.toNat / 4096 % 64 < 0xC0) ∧
            ((0x80 : Nat) ≤ 0x80 + c.toNat / 64 % 64 ∧ 0x80 + c.toNat / 64 % 64 < 0xC0) ∧
            (0x80 : Nat) ≤ 0x80 + c.toNat % 64 ∧ 0x80 + c.toNat % 64 < 0xC0)]
        have harith : (0xF0 + c.toNat / 262144 - 0xF0) * 262144 +
            (0x80 + c.toNat / 4096 % 64 - 0x80) * 4096 +
            (0x80 + c.toNat / 64 % 64 - 0x80) * 64 + (0x80 + c.toNat % 64 - 0x80) =
            c.toNat := by omega
        rw [harith, if_pos ⟨by omega, by omega⟩]

theorem utf8Decode_cons_some {b n : Nat} {bs rest : List Nat}
    (h : utf8Header (b :: bs) = some (n, rest)) :
    utf8Decode (b :: bs) = (utf8Decode rest).map (Char.ofNat n :: ·) := by
  rw [utf8Decode]
  split
  · next n' rest' h' =>
    rw [h', Option.some.injEq, Prod.mk.injEq] at h
    obtain ⟨hn, hrest⟩ := h
    subst hn
    subst hrest
    rfl
  · next h' => rw [h'] at h; cases h

theorem utf8EncodeChar_ne_nil (c : Char) : utf8EncodeChar c ≠ [] := by
  simp only [utf8EncodeChar]
  split
  · simp
  · split
    · simp
    · split <;> simp

theorem utf8Decode_encodeChar (c : Char) (rest : List Nat) :
    utf8Decode (utf8EncodeChar c ++ rest) = (utf8Decode rest).map (c :: ·) := by
  have hh := utf8Header_encodeChar c rest
  obtain ⟨b, bs, heq⟩ : ∃ b bs, utf8EncodeChar c ++ rest = b :: bs := by
    cases hE : utf8EncodeChar c with
    | nil => exact absurd hE (utf8EncodeChar_ne_nil c)
    | cons b bs => exact ⟨b, bs ++ rest, by rw [List.cons_append]⟩
  rw [heq] at hh ⊢
  rw [utf8Decode_cons_some hh, Char.ofNat_toNat]

theorem utf8Decode_nil : utf8Decode [] = some [] := by
  rw [utf8Decode]

theorem utf8Decode_encode (l : List Char) :
    utf8Decode (l.flatMap utf8EncodeChar) = some l := by
  induction l with
  | nil => rw [List.flatMap_nil, utf8Decode_nil]
  | cons c cs ih => rw [List.flatMap_cons, utf8Decode_encodeChar, ih]; rfl

theorem formUrlDecode_encode (s : String) : formUrlDecode (formUrlEncode s) = some s := by
  have hdata : (formUrlEncode s).data =
      (s.data.flatMap utf8EncodeChar).flatMap formEncodeByte := by
    show s.data.flatMap (fun c => (utf8EncodeChar c).flatMap formEncodeByte) = _
    induction s.data with
    | nil => rfl
    | cons c cs ih => rw [List.flatMap_cons, List.flatMap_cons, List.flatMap_append, ih]
  have hbound : ∀ b ∈ s.data.flatMap utf8EncodeChar, b < 256 := by
    intro b hb
    rcases List.mem_flatMap.mp hb with ⟨c, _, hbc⟩
    exact utf8EncodeChar_lt c b hbc
  have h1 : formDecodeChars (formUrlEncode s).data =
      some (s.data.flatMap utf8EncodeChar) := by
    rw [hdata, ← List.append_nil ((s.data.flatMap utf8EncodeChar).flatMap formEncodeByte),
      formDecodeChars_encodeBytes _ hbound []]
    rw [show formDecodeChars [] = some [] from rfl]
    simp
  rw [formUrlDecode, h1]
  dsimp only
  rw [utf8Decode_encode]

/-- Claim C6: `buildAuthUrl` — a pure function of `(state, redirectUri,
clientId)` in this embedding, hence deterministic and side-effect free —
produces the provider authorization endpoint followed by a query string
that splits at `&` into exactly the seven `name=value` units
`access_type=offline`, the space-joined `scope` list, `state`,
`prompt=consent`, `response_type=code`, `client_id` and `redirect_uri`,
in that order, each value form-urlencoded losslessly (decoding returns
the exact input). -/
theorem buildAuthUrl_query_exact (st ru cid : String) :
    buildAuthUrl st ru cid =
        authEndpoint ++ "?" ++ ⟨serializeParams (authParams st ru cid)⟩ ∧
      splitOnChar '&' (serializeParams (authParams st ru cid)) =
        (authParams st ru cid).map paramSeg ∧
      (authParams st ru cid).map Prod.fst =
        ["access_type", "scope", "state", "prompt", "response_type", "client_id",
          "redirect_uri"] ∧
      (authParams st ru cid).map Prod.snd =
        ["offline", oauthScope, st, "consent", "code", cid, ru] ∧
      formUrlDecode (formUrlEncode st) = some st ∧
      formUrlDecode (formUrlEncode cid) = some cid ∧
      formUrlDecode (formUrlEncode ru) = some ru := by
  refine ⟨rfl, ?_, rfl, rfl, formUrlDecode_encode st, formUrlDecode_encode cid,
    formUrlDecode_encode ru⟩
  refine splitOnChar_serializeParams _ (by simp [authParams]) ?_
  intro p hp
  simp only [authParams, List.mem_cons, List.not_mem_nil, or_false] at hp
  rcases hp with rfl | rfl | rfl | rfl | rfl | rfl | rfl <;>
    exact amp_not_mem_paramSeg (by decide)
